import Mathlib

/-!
Verification of `src/og_transport/fix_logger_comprehensive.py`, a single-pass
batch text patcher.  The script walks a directory tree, selects files whose
name ends in `.ps1` or `.psm1`, applies five literal `str.replace` rules to
the file content, rewrites the file in place when the content changed, prints
one line per changed file and per failure, and a final count.

The embedding models Python strings as `List Char`, `str.replace` as a
left-to-right non-overlapping scan (`replaceL`), and the run as a pure
function over a list of walked directories, with per-file read/write failure
dispositions made explicit.
-/

set_option maxRecDepth 20000

namespace FixLogger

/-- Python `str.replace pat rep` for a nonempty pattern `pat`: scan the text
left to right; at each position, if `pat` is a prefix of the remaining text,
emit `rep` and skip past the matched occurrence, otherwise emit the current
character.  Structural recursion on a fuel argument (the fuel is always at
least the length of the remaining text, so the fuel clause is never the one
that answers).  For `pat = []` the scan leaves the text unchanged; all five
patterns of the script are nonempty. -/
def replaceFuel (pat rep : List Char) : Nat → List Char → List Char
  | 0, l => l
  | _ + 1, [] => []
  | n + 1, c :: cs =>
    if pat ≠ [] ∧ pat <+: (c :: cs) then
      rep ++ replaceFuel pat rep n ((c :: cs).drop pat.length)
    else
      c :: replaceFuel pat rep n cs

/-- `str.replace`: run the scan with enough fuel. -/
def replaceL (pat rep s : List Char) : List Char :=
  replaceFuel pat rep s.length s

theorem replaceFuel_eq_of_le (pat rep : List Char) :
    ∀ n m s, s.length ≤ n → s.length ≤ m →
      replaceFuel pat rep n s = replaceFuel pat rep m s := by
  intro n
  induction n with
  | zero =>
    intro m s hn _
    have hs : s = [] := List.length_eq_zero.mp (Nat.le_zero.mp hn)
    subst hs
    cases m <;> rfl
  | succ n ih =>
    intro m s hn hm
    cases s with
    | nil => cases m <;> rfl
    | cons c cs =>
      cases m with
      | zero => simp at hm
      | succ m =>
        rw [replaceFuel, replaceFuel]
        by_cases h : pat ≠ [] ∧ pat <+: (c :: cs)
        · rw [if_pos h, if_pos h]
          have hplen : 0 < pat.length := List.length_pos.mpr h.1
          have hlen : ((c :: cs).drop pat.length).length ≤ cs.length := by
            rw [List.length_drop]
            simp only [List.length_cons]
            omega
          have h1 : ((c :: cs).drop pat.length).length ≤ n := by
            simp only [List.length_cons] at hn; omega
          have h2 : ((c :: cs).drop pat.length).length ≤ m := by
            simp only [List.length_cons] at hm; omega
          rw [ih m _ h1 h2]
        · rw [if_neg h, if_neg h]
          have h1 : cs.length ≤ n := by
            simp only [List.length_cons] at hn; omega
          have h2 : cs.length ≤ m := by
            simp only [List.length_cons] at hm; omega
          rw [ih m cs h1 h2]

theorem replaceL_nil (pat rep : List Char) : replaceL pat rep [] = [] := rfl

theorem replaceL_cons_pos {pat : List Char} (rep : List Char) {c : Char} {cs : List Char}
    (hne : pat ≠ []) (hp : pat <+: c :: cs) :
    replaceL pat rep (c :: cs) = rep ++ replaceL pat rep ((c :: cs).drop pat.length) := by
  have hplen : 0 < pat.length := List.length_pos.mpr hne
  show replaceFuel pat rep (cs.length + 1) (c :: cs) = _
  rw [replaceFuel, if_pos ⟨hne, hp⟩]
  congr 1
  apply replaceFuel_eq_of_le
  · rw [List.length_drop]; simp only [List.length_cons]; omega
  · exact Nat.le_refl _

theorem replaceL_cons_neg {pat : List Char} (rep : List Char) {c : Char} {cs : List Char}
    (h : ¬ (pat ≠ [] ∧ pat <+: c :: cs)) :
    replaceL pat rep (c :: cs) = c :: replaceL pat rep cs := by
  show replaceFuel pat rep (cs.length + 1) (c :: cs) = _
  rw [replaceFuel, if_neg h]
  rfl

/-- A text in which the pattern does not occur is left unchanged by the scan. -/
theorem replaceL_eq_self {pat : List Char} (rep : List Char) {s : List Char}
    (h : ¬ pat <:+: s) : replaceL pat rep s = s := by
  induction s with
  | nil => rfl
  | cons c cs ih =>
    rw [replaceL_cons_neg rep (fun hc => h hc.2.isInfix)]
    rw [ih (fun hc => h (List.infix_cons hc))]

/-- First-match decomposition: if the pattern occurs, the text splits as
`l ++ pat ++ rest` where no match starts inside `l`, and the scan emits `l`,
then `rep`, then the scan of `rest`. -/
theorem replaceL_firstMatch {pat : List Char} (rep : List Char) {s : List Char}
    (hne : pat ≠ []) (h : pat <:+: s) :
    ∃ l rest, s = l ++ pat ++ rest ∧ (∀ j, j < l.length → ¬ pat <+: s.drop j) ∧
      replaceL pat rep s = l ++ rep ++ replaceL pat rep rest := by
  induction s with
  | nil =>
    exact absurd (List.eq_nil_of_infix_nil h) hne
  | cons c cs ih =>
    by_cases hp : pat <+: c :: cs
    · refine ⟨[], (c :: cs).drop pat.length, ?_, ?_, ?_⟩
      · obtain ⟨t, ht⟩ := hp
        rw [← ht, List.drop_left, List.nil_append]
      · intro j hj; simp at hj
      · rw [replaceL_cons_pos rep hne hp, List.nil_append]
    · have hcs : pat <:+: cs := by
        rcases List.infix_cons_iff.mp h with h1 | h2
        · exact absurd h1 hp
        · exact h2
      obtain ⟨l, rest, heq, hmin, hrw⟩ := ih hcs
      refine ⟨c :: l, rest, ?_, ?_, ?_⟩
      · rw [List.cons_append, List.cons_append, ← heq]
      · intro j hj
        cases j with
        | zero => simpa using hp
        | succ j =>
          simp only [List.length_cons] at hj
          simpa using hmin j (Nat.lt_of_succ_lt_succ hj)
      · rw [replaceL_cons_neg rep (fun hc => hp hc.2), hrw,
          List.cons_append, List.cons_append]

/-- If the pattern occurs, the replacement string occurs in the output. -/
theorem rep_infix_replaceL {pat : List Char} (rep : List Char) {s : List Char}
    (hne : pat ≠ []) (h : pat <:+: s) : rep <:+: replaceL pat rep s := by
  obtain ⟨l, rest, _, _, hrw⟩ := replaceL_firstMatch rep hne h
  rw [hrw, List.append_assoc]
  exact (rep.prefix_append _).isInfix.trans (l.suffix_append _).isInfix

/-- An occurrence of `occ` inside `a ++ b` lies inside `a`, lies inside `b`,
or spans the junction, in which case a proper nonempty initial part of `occ`
is a suffix of `a` and the matching rest is a prefix of `b`. -/
theorem infix_append_cases {occ a b : List Char} (h : occ <:+: a ++ b) :
    occ <:+: a ∨ occ <:+: b ∨
      ∃ k, 0 < k ∧ k < occ.length ∧ occ.take k <:+ a ∧ occ.drop k <+: b := by
  obtain ⟨l, r, hl⟩ := h
  rw [List.append_assoc] at hl
  rcases List.append_eq_append_iff.mp hl with ⟨a', ha, hb⟩ | ⟨c', _, hd⟩
  · -- a = l ++ a', occ ++ r = a' ++ b
    rcases List.append_eq_append_iff.mp hb with ⟨x, hx1, _⟩ | ⟨y, hy1, hy2⟩
    · -- a' = occ ++ x : occ lies inside a
      refine Or.inl ⟨l, x, ?_⟩
      rw [ha, hx1, List.append_assoc]
    · -- occ = a' ++ y, b = y ++ r
      by_cases ha' : a' = []
      · subst ha'
        simp only [List.nil_append] at hy1
        exact Or.inr (Or.inl ⟨[], r, by rw [hy2, hy1, List.nil_append]⟩)
      · by_cases hy : y = []
        · subst hy
          rw [List.append_nil] at hy1
          exact Or.inl ⟨l, [], by rw [ha, hy1, List.append_nil]⟩
        · refine Or.inr (Or.inr ⟨a'.length, ?_, ?_, ?_, ?_⟩)
          · exact List.length_pos.mpr ha'
          · rw [hy1, List.length_append]
            have := List.length_pos.mpr hy
            omega
          · rw [hy1, List.take_left]
            exact ⟨l, by rw [ha]⟩
          · rw [hy1, List.drop_left]
            exact ⟨r, hy2.symm⟩
  · -- b = c' ++ occ ++ r
    exact Or.inr (Or.inl ⟨c', r, by rw [hd, List.append_assoc]⟩)

/-- `occ` and `m` cannot overlap in any text: neither contains the other, no
nonempty proper suffix of `occ` starts `m`, and no nonempty proper initial
part of `occ` ends `m`. -/
def NoOverlap (occ m : List Char) : Prop :=
  ¬ occ <:+: m ∧ ¬ m <:+: occ ∧
    (∀ k < occ.length, 0 < k → ¬ occ.drop k <+: m) ∧
    (∀ k < occ.length, 0 < k → ¬ occ.take k <:+ m)

instance (occ m : List Char) : Decidable (NoOverlap occ m) := by
  unfold NoOverlap
  infer_instance

/-- A non-overlapping `occ` occurring in `l ++ m ++ t` occurs in `l` or in `t`. -/
theorem infix_junction {occ m l t : List Char} (hno : NoOverlap occ m)
    (h : occ <:+: l ++ m ++ t) : occ <:+: l ∨ occ <:+: t := by
  rw [List.append_assoc] at h
  rcases infix_append_cases h with h1 | h2 | ⟨k, hk0, hkl, htake, hdrop⟩
  · exact Or.inl h1
  · rcases infix_append_cases h2 with g1 | g2 | ⟨k, hk0, hkl, gtake, _⟩
    · exact absurd g1 hno.1
    · exact Or.inr g2
    · exact absurd gtake (hno.2.2.2 k hkl hk0)
  · rcases Nat.le_total (occ.drop k).length m.length with hle | hge
    · have hpm : occ.drop k <+: m :=
        List.prefix_of_prefix_length_le hdrop (m.prefix_append t) hle
      exact absurd hpm (hno.2.2.1 k hkl hk0)
    · have hm : m <+: occ.drop k :=
        List.prefix_of_prefix_length_le (m.prefix_append t) hdrop hge
      exact absurd (hm.isInfix.trans (List.drop_suffix k occ).isInfix) hno.2.1

theorem NoOverlap.occ_ne_nil {occ m : List Char} (hno : NoOverlap occ m) : occ ≠ [] :=
  fun he => hno.1 (he ▸ List.nil_infix)

theorem NoOverlap.m_ne_nil {occ m : List Char} (hno : NoOverlap occ m) : m ≠ [] :=
  fun he => hno.2.1 (he ▸ List.nil_infix)

/-- Occurrence preservation: replacing a pattern that cannot overlap `occ`
keeps every occurrence of `occ`. -/
theorem infix_replaceL_of_noOverlap {occ pat : List Char} (rep : List Char)
    (hno : NoOverlap occ pat) :
    ∀ s, occ <:+: s → occ <:+: replaceL pat rep s := by
  have hne : pat ≠ [] := hno.m_ne_nil
  suffices haux : ∀ n s, s.length ≤ n → occ <:+: s → occ <:+: replaceL pat rep s by
    intro s
    exact haux s.length s (Nat.le_refl _)
  intro n
  induction n with
  | zero =>
    intro s hs h
    have : s = [] := List.length_eq_zero.mp (Nat.le_zero.mp hs)
    subst this
    exact h
  | succ n ih =>
    intro s hs h
    by_cases hp : pat <:+: s
    · obtain ⟨l, rest, heq, _, hrw⟩ := replaceL_firstMatch rep hne hp
      rw [hrw]
      rcases infix_junction hno (heq ▸ h) with hL | hR
      · rw [List.append_assoc]
        exact hL.trans (l.prefix_append _).isInfix
      · have hlen : rest.length ≤ n := by
          have hleq := congrArg List.length heq
          simp only [List.length_append] at hleq
          have hp1 : 0 < pat.length := List.length_pos.mpr hne
          omega
        rw [List.append_assoc]
        have hsuf : replaceL pat rep rest <:+ l ++ (rep ++ replaceL pat rep rest) :=
          (rep.suffix_append _).trans (l.suffix_append _)
        exact (ih rest hlen hR).trans hsuf.isInfix
    · rw [replaceL_eq_self rep hp]
      exact h

/-- Absence preservation: replacing `pat` by a replacement that cannot
overlap `occ` cannot create an occurrence of `occ`. -/
theorem not_infix_replaceL_of_noOverlap {occ pat rep : List Char}
    (hno : NoOverlap occ rep) (hne : pat ≠ []) :
    ∀ s, ¬ occ <:+: s → ¬ occ <:+: replaceL pat rep s := by
  suffices haux : ∀ n s, s.length ≤ n → ¬ occ <:+: s → ¬ occ <:+: replaceL pat rep s by
    intro s
    exact haux s.length s (Nat.le_refl _)
  intro n
  induction n with
  | zero =>
    intro s hs h
    have : s = [] := List.length_eq_zero.mp (Nat.le_zero.mp hs)
    subst this
    exact h
  | succ n ih =>
    intro s hs h
    by_cases hp : pat <:+: s
    · obtain ⟨l, rest, heq, _, hrw⟩ := replaceL_firstMatch rep hne hp
      rw [hrw]
      intro hcon
      rcases infix_junction hno hcon with hL | hR
      · have hpre : l <+: l ++ pat ++ rest :=
          (l.prefix_append pat).trans ((l ++ pat).prefix_append rest)
        exact h (heq ▸ (hL.trans hpre.isInfix))
      · have hlen : rest.length ≤ n := by
          have hleq := congrArg List.length heq
          simp only [List.length_append] at hleq
          have hp1 : 0 < pat.length := List.length_pos.mpr hne
          omega
        have hrest : ¬ occ <:+: rest := by
          intro hcr
          have hsuf : rest <:+ l ++ pat ++ rest := (l ++ pat).suffix_append rest
          exact h (heq ▸ (hcr.trans hsuf.isInfix))
        exact ih rest hlen hrest hR
    · rw [replaceL_eq_self rep hp]
      exact h

/-- Pattern removal: after replacing `pat` by a replacement that cannot
overlap `pat` itself, `pat` no longer occurs anywhere. -/
theorem not_pat_infix_replaceL {pat rep : List Char} (hno : NoOverlap pat rep) :
    ∀ s, ¬ pat <:+: replaceL pat rep s := by
  have hne : pat ≠ [] := hno.occ_ne_nil
  suffices haux : ∀ n s, s.length ≤ n → ¬ pat <:+: replaceL pat rep s by
    intro s
    exact haux s.length s (Nat.le_refl _)
  intro n
  induction n with
  | zero =>
    intro s hs
    have : s = [] := List.length_eq_zero.mp (Nat.le_zero.mp hs)
    subst this
    rw [replaceL_nil]
    exact fun hc => hne (List.eq_nil_of_infix_nil hc)
  | succ n ih =>
    intro s hs
    by_cases hp : pat <:+: s
    · obtain ⟨l, rest, heq, hmin, hrw⟩ := replaceL_firstMatch rep hne hp
      rw [hrw]
      intro hcon
      rcases infix_junction hno hcon with hL | hR
      · obtain ⟨u, w, huw⟩ := hL
        have hj : u.length < l.length := by
          have := congrArg List.length huw
          simp only [List.length_append] at this
          have hp1 : 0 < pat.length := List.length_pos.mpr hne
          omega
        apply hmin u.length hj
        have hs' : s = u ++ (pat ++ (w ++ (pat ++ rest))) := by
          rw [heq, ← huw]
          simp only [List.append_assoc]
        rw [hs', List.drop_left' rfl]
        exact pat.prefix_append _
      · have hlen : rest.length ≤ n := by
          have hleq := congrArg List.length heq
          simp only [List.length_append] at hleq
          have hp1 : 0 < pat.length := List.length_pos.mpr hne
          omega
        exact ih rest hlen hR
    · rw [replaceL_eq_self rep hp]
      exact hp

/-! ### The five substitution rules (source lines 24-30) -/

def pat1 : List Char := "[Logger]$_logger".data
def rep1 : List Char := "[object]$_logger".data
def pat2 : List Char := "[Logger] $_logger".data
def rep2 : List Char := "[object] $_logger".data
def pat3 : List Char := "([Logger]$logger)".data
def rep3 : List Char := "([object]$logger)".data
def pat4 : List Char := "([Logger] $logger)".data
def rep4 : List Char := "([object] $logger)".data
def pat5 : List Char := "[SpeedTUI.Core.Logger]".data
def rep5 : List Char := "[object]".data

/-- The in-memory transformation applied to each candidate file's text:
the five global literal replacements, in the source's order, each rule's
output feeding the next (source lines 24-30). -/
def fixContent (content : List Char) : List Char :=
  replaceL pat5 rep5
    (replaceL pat4 rep4
      (replaceL pat3 rep3
        (replaceL pat2 rep2
          (replaceL pat1 rep1 content))))

theorem pat1_ne : pat1 ≠ [] := by decide
theorem pat2_ne : pat2 ≠ [] := by decide
theorem pat3_ne : pat3 ≠ [] := by decide
theorem pat4_ne : pat4 ≠ [] := by decide
theorem pat5_ne : pat5 ≠ [] := by decide

theorem no_p1_r1 : NoOverlap pat1 rep1 := by decide
theorem no_p1_r2 : NoOverlap pat1 rep2 := by decide
theorem no_p1_r3 : NoOverlap pat1 rep3 := by decide
theorem no_p1_r4 : NoOverlap pat1 rep4 := by decide
theorem no_p1_r5 : NoOverlap pat1 rep5 := by decide
theorem no_p2_r2 : NoOverlap pat2 rep2 := by decide
theorem no_p2_r3 : NoOverlap pat2 rep3 := by decide
theorem no_p2_r4 : NoOverlap pat2 rep4 := by decide
theorem no_p2_r5 : NoOverlap pat2 rep5 := by decide
theorem no_p3_r3 : NoOverlap pat3 rep3 := by decide
theorem no_p3_r4 : NoOverlap pat3 rep4 := by decide
theorem no_p3_r5 : NoOverlap pat3 rep5 := by decide
theorem no_p4_r4 : NoOverlap pat4 rep4 := by decide
theorem no_p4_r5 : NoOverlap pat4 rep5 := by decide
theorem no_p5_r5 : NoOverlap pat5 rep5 := by decide
theorem no_p2_p1 : NoOverlap pat2 pat1 := by decide
theorem no_r2_p3 : NoOverlap rep2 pat3 := by decide
theorem no_r2_p4 : NoOverlap rep2 pat4 := by decide
theorem no_r2_p5 : NoOverlap rep2 pat5 := by decide

/-- After the full pipeline, rule 1's pattern does not occur. -/
theorem not_pat1_fixContent (content : List Char) : ¬ pat1 <:+: fixContent content := by
  unfold fixContent
  apply not_infix_replaceL_of_noOverlap no_p1_r5 pat5_ne
  apply not_infix_replaceL_of_noOverlap no_p1_r4 pat4_ne
  apply not_infix_replaceL_of_noOverlap no_p1_r3 pat3_ne
  apply not_infix_replaceL_of_noOverlap no_p1_r2 pat2_ne
  exact not_pat_infix_replaceL no_p1_r1 content

/-- After the full pipeline, rule 2's pattern does not occur. -/
theorem not_pat2_fixContent (content : List Char) : ¬ pat2 <:+: fixContent content := by
  unfold fixContent
  apply not_infix_replaceL_of_noOverlap no_p2_r5 pat5_ne
  apply not_infix_replaceL_of_noOverlap no_p2_r4 pat4_ne
  apply not_infix_replaceL_of_noOverlap no_p2_r3 pat3_ne
  exact not_pat_infix_replaceL no_p2_r2 _

/-- After the full pipeline, rule 3's pattern does not occur. -/
theorem not_pat3_fixContent (content : List Char) : ¬ pat3 <:+: fixContent content := by
  unfold fixContent
  apply not_infix_replaceL_of_noOverlap no_p3_r5 pat5_ne
  apply not_infix_replaceL_of_noOverlap no_p3_r4 pat4_ne
  exact not_pat_infix_replaceL no_p3_r3 _

/-- After the full pipeline, rule 4's pattern does not occur. -/
theorem not_pat4_fixContent (content : List Char) : ¬ pat4 <:+: fixContent content := by
  unfold fixContent
  apply not_infix_replaceL_of_noOverlap no_p4_r5 pat5_ne
  exact not_pat_infix_replaceL no_p4_r4 _

/-- After the full pipeline, rule 5's pattern does not occur. -/
theorem not_pat5_fixContent (content : List Char) : ¬ pat5 <:+: fixContent content := by
  unfold fixContent
  exact not_pat_infix_replaceL no_p5_r5 _

/-- A text containing none of the five patterns is a fixed point of the
pipeline. -/
theorem fixContent_eq_self {content : List Char}
    (h1 : ¬ pat1 <:+: content) (h2 : ¬ pat2 <:+: content) (h3 : ¬ pat3 <:+: content)
    (h4 : ¬ pat4 <:+: content) (h5 : ¬ pat5 <:+: content) :
    fixContent content = content := by
  unfold fixContent
  rw [replaceL_eq_self rep1 h1, replaceL_eq_self rep2 h2, replaceL_eq_self rep3 h3,
    replaceL_eq_self rep4 h4, replaceL_eq_self rep5 h5]

/-! ### The run model (walker, filter, patcher, reporter) -/

/-- One console line.  `relaxed p` models `Relaxed [Logger] type constraint
in: <p>` (source line 33), `failed p` models `Failed to process <p>: <e>`
(source line 39, the exception detail abstracted away), `total n` models
`Total files fixed: <n>` (source line 41). -/
inductive Msg where
  | relaxed : String → Msg
  | failed : String → Msg
  | total : Nat → Msg
deriving DecidableEq

/-- Disposition of the write step (source lines 34-35) for one file.
`ok`: `open(filepath, 'w')` and `f.write` both succeed.  `openFail`: the
`open` call raises, the file keeps its bytes.  `writeFail k`: `open`
succeeds (truncating the file, Python `'w'` semantics) and `f.write` raises
after `k` characters reached the file, leaving a prefix of the new text. -/
inductive WriteOutcome where
  | ok : WriteOutcome
  | openFail : WriteOutcome
  | writeFail : Nat → WriteOutcome
deriving DecidableEq

/-- One regular file seen by the walk: its name within the directory, its
text content, and its failure dispositions.  `readFails` models any
exception in the read block (source lines 12-13): open failure, I/O error,
or UTF-8 decode error. -/
structure File where
  name : String
  content : List Char
  readFails : Bool
  write : WriteOutcome
deriving DecidableEq

/-- `os.path.join(root, file)` (POSIX separator). -/
def joinPath (root name : String) : String := root ++ "/" ++ name

/-- The Filter (source line 9): the file name ends with `.ps1` or `.psm1`. -/
def isCandidate (name : String) : Bool :=
  ".ps1".data.isSuffixOf name.data || ".psm1".data.isSuffixOf name.data

/-- What processing one walked file produced: the file's final on-disk
state, whether the read block ran, whether the file was opened for writing,
the console lines printed for it, and whether it incremented the counter. -/
structure Outcome where
  final : File
  readAttempted : Bool
  writeAttempted : Bool
  msgs : List Msg
  changed : Bool
deriving DecidableEq

/-- The per-file body of the loop (source lines 8-39).  Non-candidates are
skipped entirely.  For a candidate: a read failure is caught and reported;
otherwise the five rules run; if the text is unchanged nothing happens; if
it changed, the `relaxed` line is printed first (source line 33), then the
write is attempted (lines 34-35), and a write failure is caught and
reported without incrementing the counter (lines 36-39). -/
def processFile (root : String) (f : File) : Outcome :=
  if isCandidate f.name then
    if f.readFails then
      ⟨f, true, false, [Msg.failed (joinPath root f.name)], false⟩
    else
      if fixContent f.content = f.content then
        ⟨f, true, false, [], false⟩
      else
        match f.write with
        | WriteOutcome.ok =>
          ⟨⟨f.name, fixContent f.content, f.readFails, f.write⟩, true, true,
            [Msg.relaxed (joinPath root f.name)], true⟩
        | WriteOutcome.openFail =>
          ⟨f, true, true,
            [Msg.relaxed (joinPath root f.name), Msg.failed (joinPath root f.name)], false⟩
        | WriteOutcome.writeFail k =>
          ⟨⟨f.name, (fixContent f.content).take k, f.readFails, f.write⟩, true, true,
            [Msg.relaxed (joinPath root f.name), Msg.failed (joinPath root f.name)], false⟩
  else
    ⟨f, false, false, [], false⟩

/-- One directory reached by `os.walk` (source line 7): its root path, the
regular files it holds, and whether listing it succeeds.  With the default
`onerror=None`, `os.walk` silently skips any directory whose `scandir`
raises; a nonexistent or unlistable top directory behaves like a single
unlistable directory and yields nothing. -/
structure WalkDir where
  root : String
  files : List File
  readable : Bool
deriving DecidableEq

/-- The sequence of (directory root, file) pairs the two nested loops
(source lines 7-8) iterate over. -/
def walkFiles (dirs : List WalkDir) : List (String × File) :=
  dirs.flatMap (fun d => if d.readable then d.files.map (fun f => (d.root, f)) else [])

/-- Everything observable about one run: per-file outcomes paired with the
file's initial state, the final counter, the console transcript, and the
process exit status.  The exit status is 0: the script calls no `sys.exit`,
`os.walk` with default error handling never raises, and every exception in
the per-file body is caught (source lines 11, 38). -/
structure RunResult where
  outcomes : List (File × Outcome)
  filesFixed : Nat
  msgs : List Msg
  exitCode : Nat
deriving DecidableEq

/-- The outcome of every walked file, in walk order, paired with the file's
initial state. -/
def runOutcomes (pairs : List (String × File)) : List (File × Outcome) :=
  pairs.map (fun pr => (pr.2, processFile pr.1 pr.2))

/-- The counter `files_fixed` (source lines 5, 36): one increment per file
whose processing reached the successful-write branch. -/
def runCount (pairs : List (String × File)) : Nat :=
  (runOutcomes pairs).countP (fun po => po.2.changed)

/-- The loop over the walked files followed by the summary line
(source lines 7-41). -/
def runOfPairs (pairs : List (String × File)) : RunResult :=
  ⟨runOutcomes pairs, runCount pairs,
    (runOutcomes pairs).flatMap (fun po => po.2.msgs) ++ [Msg.total (runCount pairs)], 0⟩

/-- The whole script (source lines 4-41): walk, filter and patch each file,
accumulate the count of changed files, print per-file lines in order and
the final summary line. -/
def fix_logger_type_mismatch_comprehensive (dirs : List WalkDir) : RunResult :=
  runOfPairs (walkFiles dirs)

/-- Whether the write step succeeded. -/
def writeOk : WriteOutcome → Bool
  | WriteOutcome.ok => true
  | WriteOutcome.openFail => false
  | WriteOutcome.writeFail _ => false

/-- A file increments the counter exactly when it is a candidate, its read
succeeded, the five rules changed its text, and the write succeeded. -/
theorem processFile_changed (root : String) (f : File) :
    (processFile root f).changed =
      (isCandidate f.name && !f.readFails && writeOk f.write &&
        !(fixContent f.content == f.content)) := by
  unfold processFile
  cases hc : isCandidate f.name
  · simp
  · cases hr : f.readFails
    · by_cases hf : fixContent f.content = f.content
      · simp [hf]
      · cases hw : f.write
        · simp [hf, writeOk, beq_eq_false_iff_ne.mpr hf]
        · simp [hf, writeOk]
        · simp [hf, writeOk]
    · simp

/-- A file is opened for writing exactly when it is a candidate, its read
succeeded, and the five rules changed its text. -/
theorem processFile_writeAttempted (root : String) (f : File) :
    (processFile root f).writeAttempted = true ↔
      (isCandidate f.name = true ∧ f.readFails = false ∧
        fixContent f.content ≠ f.content) := by
  unfold processFile
  cases hc : isCandidate f.name
  · simp
  · cases hr : f.readFails
    · by_cases hf : fixContent f.content = f.content
      · simp [hf]
      · cases hw : f.write <;> simp [hf]
    · simp

/-- Non-candidate files are skipped entirely. -/
theorem processFile_not_candidate (root : String) {f : File}
    (h : isCandidate f.name = false) :
    processFile root f = ⟨f, false, false, [], false⟩ := by
  unfold processFile
  rw [if_neg]
  simp [h]

/-- A candidate whose text the five rules leave unchanged is not written. -/
theorem processFile_unchanged (root : String) {f : File}
    (h : fixContent f.content = f.content) :
    (processFile root f).writeAttempted = false ∧ (processFile root f).final = f := by
  unfold processFile
  cases hc : isCandidate f.name
  · simp
  · cases hr : f.readFails
    · simp [h]
    · simp

/-! ### Claims -/

/-- C1: the Patcher is exactly the five literal global replacements in the
source's fixed order, each rule's output feeding the next; in particular
every input occurrence of `[Logger] $_logger` yields `[object] $_logger` in
the output, and no partially- or doubly-substituted artifact remains (the
original pattern never survives the pipeline). -/
theorem claim_C1_rule_order_no_clobber (content : List Char) :
    fixContent content =
      replaceL pat5 rep5 (replaceL pat4 rep4 (replaceL pat3 rep3
        (replaceL pat2 rep2 (replaceL pat1 rep1 content)))) ∧
    (pat2 <:+: content → rep2 <:+: fixContent content) ∧
    ¬ pat2 <:+: fixContent content := by
  refine ⟨rfl, ?_, not_pat2_fixContent content⟩
  intro h
  unfold fixContent
  apply infix_replaceL_of_noOverlap rep5 no_r2_p5
  apply infix_replaceL_of_noOverlap rep4 no_r2_p4
  apply infix_replaceL_of_noOverlap rep3 no_r2_p3
  exact rep_infix_replaceL rep2 pat2_ne
    (infix_replaceL_of_noOverlap rep1 no_p2_p1 content h)

def sampleA : List Char := "hidden [Logger] $_logger".data

theorem claim_C1_witness : pat2 <:+: sampleA ∧ rep2 <:+: fixContent sampleA :=
  ⟨by decide, (claim_C1_rule_order_no_clobber sampleA).2.1 (by decide)⟩

/-- C2: the five-rule transformation is idempotent: none of the five
left-hand patterns survives one application, so a second application is the
identity. -/
theorem claim_C2_idempotent (content : List Char) :
    fixContent (fixContent content) = fixContent content :=
  fixContent_eq_self (not_pat1_fixContent content) (not_pat2_fixContent content)
    (not_pat3_fixContent content) (not_pat4_fixContent content)
    (not_pat5_fixContent content)

/-- C3: the final printed line carries exactly the number of candidate files
that were successfully processed (read and write both succeeded) and whose
text the five rules changed.  (Per spec section 7, a failed file is "Failed
to process" and is not counted as changed.) -/
theorem claim_C3_reported_count (dirs : List WalkDir) :
    (fix_logger_type_mismatch_comprehensive dirs).msgs.getLast? =
      some (Msg.total ((walkFiles dirs).countP (fun pr =>
        isCandidate pr.2.name && !pr.2.readFails && writeOk pr.2.write &&
          !(fixContent pr.2.content == pr.2.content)))) := by
  have hmsgs : (fix_logger_type_mismatch_comprehensive dirs).msgs =
      (runOutcomes (walkFiles dirs)).flatMap (fun po => po.2.msgs) ++
        [Msg.total (runCount (walkFiles dirs))] := rfl
  rw [hmsgs, List.getLast?_concat]
  have hcount : runCount (walkFiles dirs) =
      (walkFiles dirs).countP (fun pr =>
        isCandidate pr.2.name && !pr.2.readFails && writeOk pr.2.write &&
          !(fixContent pr.2.content == pr.2.content)) := by
    unfold runCount runOutcomes
    rw [List.countP_map]
    apply List.countP_congr
    intro pr _
    rw [Function.comp_apply, processFile_changed]
  rw [hcount]

/-- C4: a walked file is opened for writing exactly when it is a candidate,
its read succeeded and the five rules changed its text; in particular a
candidate containing none of the five patterns is never opened for writing
and its state is untouched. -/
theorem claim_C4_write_iff_changed (dirs : List WalkDir) (f : File) (o : Outcome)
    (hmem : (f, o) ∈ (fix_logger_type_mismatch_comprehensive dirs).outcomes) :
    (o.writeAttempted = true ↔
      (isCandidate f.name = true ∧ f.readFails = false ∧
        fixContent f.content ≠ f.content)) ∧
    ((¬ pat1 <:+: f.content ∧ ¬ pat2 <:+: f.content ∧ ¬ pat3 <:+: f.content ∧
        ¬ pat4 <:+: f.content ∧ ¬ pat5 <:+: f.content) →
      o.writeAttempted = false ∧ o.final = f) := by
  obtain ⟨pr, _, heq⟩ := List.mem_map.mp hmem
  have hf : pr.2 = f := congrArg Prod.fst heq
  have ho : processFile pr.1 pr.2 = o := congrArg Prod.snd heq
  subst hf
  rw [← ho]
  constructor
  · exact processFile_writeAttempted pr.1 pr.2
  · intro ⟨h1, h2, h3, h4, h5⟩
    exact processFile_unchanged pr.1 (fixContent_eq_self h1 h2 h3 h4 h5)

def plainFile : File := ⟨"c.ps1", "Write-Host 'hello'".data, false, WriteOutcome.ok⟩

def plainDirs : List WalkDir := [⟨"working", [plainFile], true⟩]

theorem claim_C4_witness :
    (processFile "working" plainFile).writeAttempted = false ∧
      (processFile "working" plainFile).final = plainFile :=
  (claim_C4_write_iff_changed plainDirs plainFile (processFile "working" plainFile)
    (by decide)).2 (by decide)

/-- C5: a per-file failure (read or write) produces a `Failed to process`
line for that file and never increments the counter; the run's transcript is
the in-order concatenation of each file's lines followed by the summary, so
a failure in one file leaves all other files' processing intact. -/
theorem claim_C5_per_file_failure :
    (∀ root f, isCandidate f.name = true →
      (f.readFails = true ∨ (f.write ≠ WriteOutcome.ok ∧
        fixContent f.content ≠ f.content)) →
      Msg.failed (joinPath root f.name) ∈ (processFile root f).msgs ∧
        (processFile root f).changed = false) ∧
    (∀ dirs, (fix_logger_type_mismatch_comprehensive dirs).msgs =
        (walkFiles dirs).flatMap (fun pr => (processFile pr.1 pr.2).msgs) ++
          [Msg.total (fix_logger_type_mismatch_comprehensive dirs).filesFixed] ∧
      (fix_logger_type_mismatch_comprehensive dirs).filesFixed =
        (walkFiles dirs).countP (fun pr => (processFile pr.1 pr.2).changed)) := by
  constructor
  · intro root f hc hfail
    rcases hfail with hfail | ⟨hw, hch⟩
    · simp [processFile, hc, hfail]
    · cases hr : f.readFails
      · cases hwv : f.write
        · exact absurd hwv hw
        · simp [processFile, hc, hr, hch, hwv]
        · simp [processFile, hc, hr, hch, hwv]
      · simp [processFile, hc, hr]
  · intro dirs
    constructor
    · show (runOutcomes (walkFiles dirs)).flatMap (fun po => po.2.msgs) ++
          [Msg.total (runCount (walkFiles dirs))] = _
      unfold runOutcomes
      rw [List.flatMap_map]
      rfl
    · show runCount (walkFiles dirs) = _
      unfold runCount runOutcomes
      rw [List.countP_map]
      rfl

def deadFile : File := ⟨"d.ps1", "[Logger]$_logger".data, true, WriteOutcome.ok⟩

theorem claim_C5_witness :
    Msg.failed (joinPath "working" deadFile.name) ∈
        (processFile "working" deadFile).msgs ∧
      (processFile "working" deadFile).changed = false :=
  claim_C5_per_file_failure.1 "working" deadFile (by decide) (Or.inl (by decide))

def lostFile : File := ⟨"a.ps1", "[Logger] $_logger".data, false, WriteOutcome.ok⟩

/-- A walk whose top directory cannot be listed (e.g. it does not exist):
`os.walk` with default `onerror=None` yields nothing. -/
def missingRoot : List WalkDir := [⟨"working", [lostFile], false⟩]

/-- C6 counterexample: with a nonexistent (unlistable) root the script does
not report any fatal error and completes with exit status 0 — the transcript
is exactly the summary line `Total files fixed: 0`.  The claim's "reports a
fatal error, exits with a non-zero status" is false; only "zero file
modifications" holds. -/
theorem claim_C6_counterexample :
    (fix_logger_type_mismatch_comprehensive missingRoot).exitCode = 0 ∧
    (fix_logger_type_mismatch_comprehensive missingRoot).msgs = [Msg.total 0] ∧
    (fix_logger_type_mismatch_comprehensive missingRoot).outcomes = [] := by
  decide

/-- C6 amended: if the root directory does not exist or is not listable,
`os.walk` yields nothing, so the tool performs zero file modifications,
prints only `Total files fixed: 0`, and completes normally with exit
status 0; no fatal error is reported. -/
theorem claim_C6_amended (dirs : List WalkDir) (h : ∀ d ∈ dirs, d.readable = false) :
    fix_logger_type_mismatch_comprehensive dirs = ⟨[], 0, [Msg.total 0], 0⟩ := by
  have hw : walkFiles dirs = [] := by
    unfold walkFiles
    induction dirs with
    | nil => rfl
    | cons d rest ih =>
      rw [List.flatMap_cons, if_neg, List.nil_append]
      · exact ih (fun d' hd' => h d' (List.mem_cons_of_mem d hd'))
      · rw [h d (List.mem_cons_self d rest)]
        exact Bool.false_ne_true
  unfold fix_logger_type_mismatch_comprehensive
  rw [hw]
  rfl

theorem claim_C6_witness :
    (∀ d ∈ missingRoot, d.readable = false) ∧
      fix_logger_type_mismatch_comprehensive missingRoot = ⟨[], 0, [Msg.total 0], 0⟩ :=
  ⟨by decide, claim_C6_amended missingRoot (by decide)⟩

/-- C7: a walked file whose name does not end in `.ps1` or `.psm1` is never
read, never opened for writing, never modified, never counted and never
reported. -/
theorem claim_C7_non_candidates_untouched (dirs : List WalkDir) (f : File) (o : Outcome)
    (hmem : (f, o) ∈ (fix_logger_type_mismatch_comprehensive dirs).outcomes)
    (hnc : isCandidate f.name = false) :
    o.readAttempted = false ∧ o.writeAttempted = false ∧ o.final = f ∧
      o.changed = false ∧ o.msgs = [] := by
  obtain ⟨pr, _, heq⟩ := List.mem_map.mp hmem
  have hf : pr.2 = f := congrArg Prod.fst heq
  have ho : processFile pr.1 pr.2 = o := congrArg Prod.snd heq
  subst hf
  rw [← ho, processFile_not_candidate pr.1 hnc]
  exact ⟨rfl, rfl, rfl, rfl, rfl⟩

def txtFile : File := ⟨"notes.txt", "[Logger] $_logger".data, false, WriteOutcome.ok⟩

def txtDirs : List WalkDir := [⟨"working", [txtFile], true⟩]

theorem claim_C7_witness :
    (processFile "working" txtFile).readAttempted = false ∧
      (processFile "working" txtFile).writeAttempted = false ∧
      (processFile "working" txtFile).final = txtFile ∧
      (processFile "working" txtFile).changed = false ∧
      (processFile "working" txtFile).msgs = [] :=
  claim_C7_non_candidates_untouched txtDirs txtFile (processFile "working" txtFile)
    (by decide) (by decide)

def stuckFile : File := ⟨"b.ps1", "[Logger] $_logger".data, false, WriteOutcome.writeFail 0⟩

/-- C8 counterexample: `open(filepath, 'w')` truncates before `f.write`
runs, so a write that fails having delivered nothing leaves the file empty —
neither its original content nor the full transformed text. -/
theorem claim_C8_counterexample :
    ¬ ((processFile "working" stuckFile).final.content = stuckFile.content ∨
       (processFile "working" stuckFile).final.content = fixContent stuckFile.content) := by
  decide

/-- C8 amended: after processing, a file holds its original content (not a
candidate, read failed, text unchanged, or the write-open failed) or the
full transformed text (successful write), except that when the write call
itself fails after the truncating open the file holds a prefix (possibly
empty) of the transformed text. -/
theorem claim_C8_amended (root : String) (f : File) :
    (processFile root f).final.content = f.content ∨
    (processFile root f).final.content = fixContent f.content ∨
    ∃ k, f.write = WriteOutcome.writeFail k ∧
      (processFile root f).final.content = (fixContent f.content).take k := by
  unfold processFile
  cases hc : isCandidate f.name
  · exact Or.inl rfl
  · cases hr : f.readFails
    · by_cases hf : fixContent f.content = f.content
      · rw [if_pos hf]
        exact Or.inl rfl
      · rw [if_neg hf]
        cases hwv : f.write
        · exact Or.inr (Or.inl rfl)
        · exact Or.inl rfl
        · exact Or.inr (Or.inr ⟨_, rfl, rfl⟩)
    · exact Or.inl rfl

/-- C9: a directory whose listing fails mid-walk is skipped silently —
the run is identical to the run on the tree without that directory: no
extra line is printed, nothing is modified, no exception escapes, and every
other directory is processed as before (`os.walk` default `onerror=None`
ignores the `scandir` error). -/
theorem claim_C9_unreadable_dir_skipped (pre post : List WalkDir) (d : WalkDir)
    (hd : d.readable = false) :
    fix_logger_type_mismatch_comprehensive (pre ++ d :: post) =
      fix_logger_type_mismatch_comprehensive (pre ++ post) := by
  unfold fix_logger_type_mismatch_comprehensive
  congr 1
  unfold walkFiles
  rw [List.flatMap_append, List.flatMap_cons, List.flatMap_append, if_neg]
  · rw [List.nil_append]
  · rw [hd]
    exact Bool.false_ne_true

def lockedDir : WalkDir := ⟨"working/locked", [lostFile], false⟩

def openDir : WalkDir := ⟨"working", [plainFile], true⟩

theorem claim_C9_witness :
    fix_logger_type_mismatch_comprehensive ([] ++ lockedDir :: [openDir]) =
      fix_logger_type_mismatch_comprehensive ([] ++ [openDir]) :=
  claim_C9_unreadable_dir_skipped [] [openDir] lockedDir (by decide)

/-- C10: the `Relaxed [Logger] type constraint in:` line is printed before
the write is attempted, so a candidate whose text changed but whose write
fails gets both lines, in that order, and is not counted. -/
theorem claim_C10_relaxed_before_failed (root : String) (f : File)
    (hc : isCandidate f.name = true) (hr : f.readFails = false)
    (hch : fixContent f.content ≠ f.content) (hw : f.write ≠ WriteOutcome.ok) :
    (processFile root f).msgs =
      [Msg.relaxed (joinPath root f.name), Msg.failed (joinPath root f.name)] ∧
    (processFile root f).changed = false := by
  cases hwv : f.write
  · exact absurd hwv hw
  · simp [processFile, hc, hr, hch, hwv]
  · simp [processFile, hc, hr, hch, hwv]

def failFile : File := ⟨"e.ps1", "([Logger] $logger)".data, false, WriteOutcome.openFail⟩

theorem claim_C10_witness :
    (processFile "working" failFile).msgs =
      [Msg.relaxed (joinPath "working" failFile.name),
        Msg.failed (joinPath "working" failFile.name)] ∧
      (processFile "working" failFile).changed = false :=
  claim_C10_relaxed_before_failed "working" failFile (by decide) (by decide)
    (by decide) (by decide)

end FixLogger
